import Mathlib

/-!
Verification of the HarmonyLab note set ("Chord"), configuration reader,
stave notater and piano-key modules, shallowly embedded from the
JavaScript sources.

Modelling conventions:
* A JS object used as a set of integer keys (Chord._notes) is a list of
  distinct natural numbers kept in ascending numeric order, which is the
  enumeration order ECMAScript guarantees for integer-like own keys.
* JS exceptions are Except String; a thrown Error e is Except.error e.
* JS default Array.prototype.sort compares elements as strings by UTF-16
  code units; on decimal numerals this is the lexicographic order of
  their decimal representations, modelled via Nat.repr and String lt.
-/

namespace HarmonyLab

/-- A change notification fired by the chord: trigger of change on/off. -/
inductive NoteEvent where
  | on : Nat → NoteEvent
  | off : Nat → NoteEvent
deriving DecidableEq, Repr

/-- State of the Chord object: the set of active MIDI note numbers
(the keys of the JS object this._notes, in ascending enumeration order). -/
structure Chord where
  notes : List Nat
deriving DecidableEq, Repr

/-- The chord constructed by `new Chord()`: this._notes = \x7b\x7d. -/
def emptyChord : Chord := ⟨[]⟩

/-- Adding an integer-like key to a JS object: inserted in ascending
numeric position if absent (ECMAScript integer-key enumeration order). -/
def insertAsc (n : Nat) : List Nat → List Nat
  | [] => [n]
  | m :: ms =>
    if n < m then n :: m :: ms
    else if n = m then m :: ms
    else m :: insertAsc n ms

/-- Chord.noteOn: changed := (_notes[number] !== true); _notes[number] := true;
if changed, trigger change on; return changed. -/
def Chord.noteOn (c : Chord) (number : Nat) : Chord × Bool × List NoteEvent :=
  let changed : Bool := !(c.notes.contains number)
  let c' : Chord := ⟨insertAsc number c.notes⟩
  (c', changed, if changed then [NoteEvent.on number] else [])

/-- Chord.noteOff: changed := (_notes[number] === true); delete _notes[number];
if changed, trigger change off; return changed. -/
def Chord.noteOff (c : Chord) (number : Nat) : Chord × Bool × List NoteEvent :=
  let changed : Bool := c.notes.contains number
  let c' : Chord := ⟨c.notes.filter (fun m => !(m == number))⟩
  (c', changed, if changed then [NoteEvent.off number] else [])

/-- Chord.isNoteOn: _notes[number] ? true : false. -/
def Chord.isNoteOn (c : Chord) (number : Nat) : Bool :=
  c.notes.contains number

/-- The comparison JS default sort applies to two keys of this._notes:
it stringifies both and compares code units; on decimal numerals this is
lexicographic comparison of the character sequences of the decimal
representations. -/
def jsKeyLe (a b : Nat) : Bool := !(decide ((Nat.repr b).data < (Nat.repr a).data))

/-- Insertion into a list sorted by a boolean comparator. -/
def insertLe (le : Nat → Nat → Bool) (x : Nat) : List Nat → List Nat
  | [] => [x]
  | y :: ys => if le x y then x :: y :: ys else y :: insertLe le x ys

/-- Insertion sort by a boolean comparator (the behaviour of
Array.prototype.sort on a list of distinct keys). -/
def sortLe (le : Nat → Nat → Bool) : List Nat → List Nat
  | [] => []
  | x :: xs => insertLe le x (sortLe le xs)

/-- Chord.getSortedNotes: pushes every own key of this._notes and calls
notes_sorted.sort() with no comparator, i.e. the string sort jsKeyLe. -/
def Chord.getSortedNotes (c : Chord) : List Nat :=
  sortLe jsKeyLe c.notes

/-- Chord.noteNumBelongsToClef: switch on the clef string; treble keeps
noteNum >= 60, bass keeps noteNum < 60, anything else throws
Error("invalid clef"). -/
def noteNumBelongsToClef (noteNum : Nat) (clef : String) : Except String Bool :=
  if clef = "treble" then Except.ok (decide (noteNum ≥ 60))
  else if clef = "bass" then Except.ok (decide (noteNum < 60))
  else Except.error "invalid clef"

/-- JS truthiness of the optional clef argument: undefined (none) and the
empty string are falsy, every other string is truthy. -/
def clefTruthy : Option String → Bool
  | Option.none => false
  | Option.some s => !(s == "")

/-- The loop body of Chord.mapNotes over the sorted note list: wanted is
true unless the clef argument is truthy, in which case
noteNumBelongsToClef decides it (and may throw). -/
def mapNotesAux (f : Nat → α) (clef : Option String) : List Nat → Except String (List α)
  | [] => Except.ok []
  | n :: ns =>
    let w : Except String Bool :=
      if clefTruthy clef then noteNumBelongsToClef n (clef.getD "")
      else Except.ok true
    match w with
    | Except.error e => Except.error e
    | Except.ok wanted =>
      match mapNotesAux f clef ns with
      | Except.error e => Except.error e
      | Except.ok rest => Except.ok (if wanted then f n :: rest else rest)

/-- Chord.mapNotes: maps the callback over getSortedNotes, filtered by
clef when one is given (truthy). -/
def Chord.mapNotes (c : Chord) (f : Nat → α) (clef : Option String) :
    Except String (List α) :=
  mapNotesAux f clef c.getSortedNotes

/-- Chord.getNoteNumbers: mapNotes with the identity callback. -/
def Chord.getNoteNumbers (c : Chord) (clef : Option String) :
    Except String (List Nat) :=
  c.mapNotes (fun noteNum => noteNum) clef

/-- Chord.getNotes: delegates to getNoteNumbers. -/
def Chord.getNotes (c : Chord) (clef : Option String) : Except String (List Nat) :=
  c.getNoteNumbers clef

/-- The pitchClass/octave record built by Chord.getNotePitches. -/
structure NotePitch where
  pitchClass : Nat
  octave : Int
deriving DecidableEq, Repr

/-- The callback of Chord.getNotePitches:
noteNum => \x7b pitchClass: noteNum % 12, octave: Math.floor(noteNum/12) - 1 \x7d
(Math.floor of a nonnegative quotient is integer division). -/
def pitchOfNote (noteNum : Nat) : NotePitch :=
  ⟨noteNum % 12, ((noteNum : Int) / 12) - 1⟩

/-- Chord.getNotePitches: mapNotes with the pitchOfNote callback. -/
def Chord.getNotePitches (c : Chord) (clef : Option String) :
    Except String (List NotePitch) :=
  c.mapNotes pitchOfNote clef

/-- The loop of Chord.hasNotes over the raw key enumeration of
this._notes: returns true at the first note (belonging to the clef when
one is truthy), false when the loop ends. -/
def hasNotesAux (clef : Option String) : List Nat → Except String Bool
  | [] => Except.ok false
  | n :: ns =>
    if clefTruthy clef then
      match noteNumBelongsToClef n (clef.getD "") with
      | Except.error e => Except.error e
      | Except.ok b => if b then Except.ok true else hasNotesAux clef ns
    else Except.ok true

/-- Chord.hasNotes. -/
def Chord.hasNotes (c : Chord) (clef : Option String) : Except String Bool :=
  hasNotesAux clef c.notes

/-! ## StaveNotater (view/transcript/stave_notater.js) -/

/-- The analyzeConfig.mode flag set consulted by the notaters. -/
structure AnalyzeMode where
  scale_degrees : Bool
  solfege : Bool
  note_names : Bool
  helmholtz : Bool
  intervals : Bool
  roman_numerals : Bool
deriving DecidableEq, Repr

/-- The kinds of annotation a notater can draw on a stave. -/
inductive Mark where
  | scaleDegree
  | solfege
  | noteName
  | helmholtz
  | interval
  | roman
deriving DecidableEq, Repr

/-- TrebleStaveNotater.notateChord: notes := chord.getNoteNumbers() (all
notes, no clef); only when notes.length === 1 it draws one of
scale-degree/solfege (mutually exclusive flags) and one of
note-name/helmholtz (mutually exclusive flags). -/
def trebleNotateChord (notes : List Nat) (mode : AnalyzeMode) : List Mark :=
  if notes.length = 1 then
    (if mode.scale_degrees && !mode.solfege then [Mark.scaleDegree]
     else if mode.solfege && !mode.scale_degrees then [Mark.solfege]
     else [])
    ++
    (if mode.note_names && !mode.helmholtz then [Mark.noteName]
     else if mode.helmholtz && !mode.note_names then [Mark.helmholtz]
     else [])
  else []

/-- BassStaveNotater.notateChord: notes := chord.getNoteNumbers();
num_notes == 2 draws the interval (when enabled), num_notes > 2 draws the
roman-numeral analysis (when enabled). -/
def bassNotateChord (notes : List Nat) (mode : AnalyzeMode) : List Mark :=
  if notes.length = 2 then
    if mode.intervals then [Mark.interval] else []
  else if notes.length > 2 then
    if mode.roman_numerals then [Mark.roman] else []
  else []

/-- The two concrete notater classes the factory can instantiate. -/
inductive Notater where
  | treble
  | bass
deriving DecidableEq, Repr

/-- StaveNotater.create: switch on the clef; treble and bass construct
the corresponding notater, anything else throws. -/
def StaveNotater.create (clef : String) : Except String Notater :=
  if clef = "treble" then Except.ok Notater.treble
  else if clef = "bass" then Except.ok Notater.bass
  else Except.error ("no such notater for clef: " ++ clef)

/-! ## Config (config.js) -/

/-- A JS configuration value: either an atomic value (modelled by an
opaque string) or an object with string keys. -/
inductive ConfigVal where
  | leaf : String → ConfigVal
  | node : List (String × ConfigVal) → ConfigVal

/-- Own-property lookup on a JS object literal (keys are unique). -/
def lookupEntries : List (String × ConfigVal) → String → Option ConfigVal
  | [], _ => Option.none
  | (k, v) :: rest, s => if k = s then Option.some v else lookupEntries rest s

/-- A JS value passed as the key argument of Config.get: either a string
or some value of another type. -/
inductive JsKey where
  | str : String → JsKey
  | nonString : JsKey

/-- The _.each loop of Config.get over the dot-separated segments:
config := config[segment] while the segment is an own property, throwing
Error("Key not found: " + key) at the first segment that is not. -/
def eachSegment (key : String) : ConfigVal → List String → Except String ConfigVal
  | config, [] => Except.ok config
  | ConfigVal.leaf _, _ :: _ => Except.error ("Key not found: " ++ key)
  | ConfigVal.node es, seg :: rest =>
    match lookupEntries es seg with
    | Option.some v => eachSegment key v rest
    | Option.none => Except.error ("Key not found: " ++ key)

/-- JS String.prototype.split with the single-character separator the
source passes: cuts the character sequence at every dot. -/
def splitSegsAux (cur : List Char) : List Char → List String
  | [] => [String.mk cur.reverse]
  | ch :: rest =>
    if ch = '.' then String.mk cur.reverse :: splitSegsAux [] rest
    else splitSegsAux (ch :: cur) rest

/-- key.split of the dot separator. -/
def splitSegs (s : String) : List String := splitSegsAux [] s.data

/-- Config.get: throws unless the key is a string, then walks the
dot-separated path through the private __config tree. -/
def configGet (root : ConfigVal) (key : JsKey) : Except String ConfigVal :=
  match key with
  | JsKey.nonString => Except.error "Config key must be a string"
  | JsKey.str k => eachSegment k root (splitSegs k)

/-- Config.set: throws unconditionally. -/
def configSet (_key : JsKey) (_value : ConfigVal) : Except String Unit :=
  Except.error "config is read-only"

/-- Specification-side path lookup, written independently of the code:
follows the segments and returns the stored value when the full path
exists. -/
def lookupPath : ConfigVal → List String → Option ConfigVal
  | c, [] => Option.some c
  | ConfigVal.leaf _, _ :: _ => Option.none
  | ConfigVal.node es, seg :: rest =>
    match lookupEntries es seg with
    | Option.some v => lookupPath v rest
    | Option.none => Option.none

/-- A call against the public Config interface. -/
inductive ConfigOp where
  | get : JsKey → ConfigOp
  | set : JsKey → ConfigVal → ConfigOp

/-- One public Config call, threading the stored tree: get reads it (the
JS loop reassigns only a local variable), set throws before touching it. -/
def runConfigOp (root : ConfigVal) : ConfigOp → ConfigVal × Except String ConfigVal
  | ConfigOp.get k => (root, configGet root k)
  | ConfigOp.set k v =>
    match configSet k v with
    | Except.ok _ => (root, Except.ok root)
    | Except.error e => (root, Except.error e)

/-- A sequence of public Config calls, returning the final stored tree. -/
def runConfigOps (root : ConfigVal) : List ConfigOp → ConfigVal
  | [] => root
  | op :: rest => runConfigOps (runConfigOp root op).1 rest

/-! ## PianoKeyMixin (piano key UI) -/

/-- const COLOR_KEYSUSTAIN. -/
def COLOR_KEYSUSTAIN : String := "90-hsla(0, 30, 40)-hsl(0,45,20)"

/-- The per-key mutable state of PianoKeyMixin: state and sustain are the
strings on and off; the keyColorMap entries for the up and down states
and their defaults. -/
structure PianoKey where
  state : String
  sustain : String
  keyColorUp : String
  keyColorDn : String
  defaultColorUp : String
  defaultColorDn : String
  noteNumber : Nat
deriving DecidableEq, Repr

/-- The key as initialized: state = STATE_KEYUP = off, sustain =
SUSTAIN_OFF = off (updateColor touches only the canvas). -/
def initPianoKey (n : Nat) (upColor dnColor : String) : PianoKey :=
  ⟨"off", "off", upColor, dnColor, upColor, dnColor, n⟩

/-- PianoKeyMixin.setColor(keyState, color): keyColorMap[keyState] := color. -/
def PianoKey.setColor (k : PianoKey) (keyState color : String) : PianoKey :=
  if keyState = "off" then { k with keyColorUp := color }
  else if keyState = "on" then { k with keyColorDn := color }
  else k

/-- PianoKeyMixin.revertColor(keyState): keyColorMap[keyState] :=
defaultKeyColorMap[keyState]. -/
def PianoKey.revertColor (k : PianoKey) (keyState : String) : PianoKey :=
  if keyState = "off" then { k with keyColorUp := k.defaultColorUp }
  else if keyState = "on" then { k with keyColorDn := k.defaultColorDn }
  else k

/-- PianoKeyMixin.press: state := STATE_KEYDN (updateColor only draws). -/
def PianoKey.press (k : PianoKey) : PianoKey :=
  { k with state := "on" }

/-- PianoKeyMixin.release: switch on sustain (SUSTAIN_ON sets the up
color to the sustain color, otherwise it reverts), then state :=
STATE_KEYUP. -/
def PianoKey.release (k : PianoKey) : PianoKey :=
  let k1 :=
    if k.sustain = "on" then k.setColor "off" COLOR_KEYSUSTAIN
    else k.revertColor "off"
  { k1 with state := "off" }

/-- A key event triggered on the keyboard: trigger of key with
(this.state, this.noteNumber). -/
structure KeyEvent where
  state : String
  noteNumber : Nat
deriving DecidableEq, Repr

/-- PianoKeyMixin.onPress (mousedown handler): only when isReleased(),
press() and trigger the key event with the new state. -/
def PianoKey.onPress (k : PianoKey) : PianoKey × List KeyEvent :=
  if k.state = "off" then
    let k' := k.press
    (k', [⟨k'.state, k'.noteNumber⟩])
  else (k, [])

/-- PianoKeyMixin.onRelease (mouseup/mouseout handler): only when
isPressed(), release() and trigger the key event with the new state. -/
def PianoKey.onRelease (k : PianoKey) : PianoKey × List KeyEvent :=
  if k.state = "on" then
    let k' := k.release
    (k', [⟨k'.state, k'.noteNumber⟩])
  else (k, [])

/-- A mouse interaction dispatched to the handlers of the key. -/
inductive KeyAction where
  | press
  | release
deriving DecidableEq, Repr

/-- Dispatch one mouse interaction to the corresponding handler. -/
def stepKey (k : PianoKey) : KeyAction → PianoKey × List KeyEvent
  | KeyAction.press => k.onPress
  | KeyAction.release => k.onRelease

/-- Run a sequence of mouse interactions, collecting the key events
triggered on the keyboard in order. -/
def runKey (k : PianoKey) : List KeyAction → PianoKey × List KeyEvent
  | [] => (k, [])
  | a :: rest =>
    let s := stepKey k a
    let r := runKey s.1 rest
    (r.1, s.2 ++ r.2)

/-- An event trace alternates when no element repeats its predecessor,
the given string standing before the first element. -/
def altFrom (prev : String) : List String → Bool
  | [] => true
  | s :: rest => (s != prev) && altFrom s rest

/-! ## Call sequences against a Chord -/

/-- One call in a noteOn/noteOff sequence. -/
inductive NoteCmd where
  | on : Nat → NoteCmd
  | off : Nat → NoteCmd
deriving DecidableEq, Repr

/-- Apply one call, keeping the resulting chord state. -/
def applyCmd (c : Chord) : NoteCmd → Chord
  | NoteCmd.on n => (c.noteOn n).1
  | NoteCmd.off n => (c.noteOff n).1

/-- Apply a sequence of noteOn/noteOff calls in order. -/
def runCmds (c : Chord) : List NoteCmd → Chord
  | [] => c
  | cmd :: rest => runCmds (applyCmd c cmd) rest

/-- The polarity of the last call made for a given identifier: some true
when it is a noteOn, some false when a noteOff, none when the sequence
never mentions the identifier. -/
def lastCmdFor (i : Nat) : List NoteCmd → Option Bool
  | [] => Option.none
  | cmd :: rest =>
    match lastCmdFor i rest with
    | Option.some b => Option.some b
    | Option.none =>
      match cmd with
      | NoteCmd.on n => if n = i then Option.some true else Option.none
      | NoteCmd.off n => if n = i then Option.some false else Option.none

/-- The chord reached from new Chord() by calling noteOn on each
identifier in turn. -/
def chordOf (ids : List Nat) : Chord :=
  ids.foldl (fun c i => (c.noteOn i).1) emptyChord

/-- An analyzeConfig.mode with every display option enabled. -/
def modeAllOn : AnalyzeMode := ⟨true, true, true, true, true, true⟩

/-! ## Helper lemmas -/

theorem contains_iff_mem (l : List Nat) (a : Nat) : l.contains a = true ↔ a ∈ l := by
  simp [List.contains]

theorem mem_insertAsc {m n : Nat} {l : List Nat} :
    m ∈ insertAsc n l ↔ m = n ∨ m ∈ l := by
  induction l with
  | nil => simp [insertAsc]
  | cons x xs ih =>
    by_cases h1 : n < x
    · simp [insertAsc, h1]
    · by_cases h2 : n = x
      · subst h2
        simp [insertAsc, h1]
      · simp [insertAsc, h1, h2, ih]
        tauto

theorem mem_insertLe (le : Nat → Nat → Bool) (x y : Nat) (l : List Nat) :
    y ∈ insertLe le x l ↔ y = x ∨ y ∈ l := by
  induction l with
  | nil => simp [insertLe]
  | cons z zs ih =>
    by_cases h : le x z
    · simp [insertLe, h]
    · simp [insertLe, h, ih]
      tauto

theorem mem_sortLe (le : Nat → Nat → Bool) (y : Nat) (l : List Nat) :
    y ∈ sortLe le l ↔ y ∈ l := by
  induction l with
  | nil => simp [sortLe]
  | cons x xs ih =>
    simp [sortLe, mem_insertLe, ih]

theorem length_insertLe (le : Nat → Nat → Bool) (x : Nat) (l : List Nat) :
    (insertLe le x l).length = l.length + 1 := by
  induction l with
  | nil => simp [insertLe]
  | cons z zs ih =>
    by_cases h : le x z
    · simp [insertLe, h]
    · simp [insertLe, h, ih]

theorem length_sortLe (le : Nat → Nat → Bool) (l : List Nat) :
    (sortLe le l).length = l.length := by
  induction l with
  | nil => rfl
  | cons x xs ih => simp [sortLe, length_insertLe, ih]

theorem mem_getSortedNotes (c : Chord) (n : Nat) :
    n ∈ c.getSortedNotes ↔ n ∈ c.notes :=
  mem_sortLe jsKeyLe n c.notes

theorem isNoteOn_noteOn_self (c : Chord) (n : Nat) :
    ((c.noteOn n).1).isNoteOn n = true := by
  simp [Chord.noteOn, Chord.isNoteOn, contains_iff_mem, mem_insertAsc]

theorem isNoteOn_noteOn_ne (c : Chord) {m n : Nat} (h : m ≠ n) :
    ((c.noteOn n).1).isNoteOn m = c.isNoteOn m := by
  simp only [Chord.noteOn, Chord.isNoteOn]
  by_cases hm : m ∈ c.notes
  · simp [contains_iff_mem, mem_insertAsc, hm]
  · simp [contains_iff_mem, mem_insertAsc, hm, h]

theorem isNoteOn_noteOff_self (c : Chord) (n : Nat) :
    ((c.noteOff n).1).isNoteOn n = false := by
  simp [Chord.noteOff, Chord.isNoteOn, List.contains]

theorem isNoteOn_noteOff_ne (c : Chord) {m n : Nat} (h : m ≠ n) :
    ((c.noteOff n).1).isNoteOn m = c.isNoteOn m := by
  simp only [Chord.noteOff, Chord.isNoteOn]
  by_cases hm : m ∈ c.notes
  · simp [contains_iff_mem, List.mem_filter, hm, h]
  · simp [contains_iff_mem, List.mem_filter, hm]

theorem runCmds_isNoteOn (seq : List NoteCmd) (c : Chord) (i : Nat) :
    (runCmds c seq).isNoteOn i = (lastCmdFor i seq).getD (c.isNoteOn i) := by
  induction seq generalizing c with
  | nil => rfl
  | cons cmd rest ih =>
    show (runCmds (applyCmd c cmd) rest).isNoteOn i = _
    rw [ih]
    cases hl : lastCmdFor i rest with
    | some b => simp [lastCmdFor, hl]
    | none =>
      rcases cmd with n | n
      · by_cases hn : n = i
        · subst hn
          simp [lastCmdFor, hl, applyCmd, isNoteOn_noteOn_self]
        · simp [lastCmdFor, hl, applyCmd, hn,
            isNoteOn_noteOn_ne c (fun hi => hn hi.symm)]
      · by_cases hn : n = i
        · subst hn
          simp [lastCmdFor, hl, applyCmd, isNoteOn_noteOff_self]
        · simp [lastCmdFor, hl, applyCmd, hn,
            isNoteOn_noteOff_ne c (fun hi => hn hi.symm)]

theorem mapNotesAux_falsy (f : Nat → α) (clef : Option String)
    (h : clefTruthy clef = false) (l : List Nat) :
    mapNotesAux f clef l = Except.ok (l.map f) := by
  induction l with
  | nil => rfl
  | cons n ns ih => simp [mapNotesAux, h, ih]

theorem mapNotesAux_pred (f : Nat → α) (s : String) (p : Nat → Bool)
    (hs : clefTruthy (Option.some s) = true)
    (hp : ∀ n, noteNumBelongsToClef n s = Except.ok (p n)) (l : List Nat) :
    mapNotesAux f (Option.some s) l = Except.ok ((l.filter p).map f) := by
  induction l with
  | nil => rfl
  | cons n ns ih =>
    by_cases hpn : p n
    · simp [mapNotesAux, hs, hp n, ih, hpn, List.filter]
    · simp at hpn
      simp [mapNotesAux, hs, hp n, ih, hpn, List.filter]

theorem mapNotesAux_invalid (f : Nat → α) (s : String)
    (h1 : s ≠ "treble") (h2 : s ≠ "bass") (h3 : s ≠ "") (n : Nat) (ns : List Nat) :
    mapNotesAux f (Option.some s) (n :: ns) = Except.error "invalid clef" := by
  simp [mapNotesAux, clefTruthy, h3, noteNumBelongsToClef, h1, h2]

theorem hasNotesAux_invalid (s : String)
    (h1 : s ≠ "treble") (h2 : s ≠ "bass") (h3 : s ≠ "") (n : Nat) (ns : List Nat) :
    hasNotesAux (Option.some s) (n :: ns) = Except.error "invalid clef" := by
  simp [hasNotesAux, clefTruthy, h3, noteNumBelongsToClef, h1, h2]

theorem eachSegment_lookupPath (key : String) (segs : List String) (c : ConfigVal) :
    eachSegment key c segs =
      match lookupPath c segs with
      | Option.some v => Except.ok v
      | Option.none => Except.error ("Key not found: " ++ key) := by
  induction segs generalizing c with
  | nil => cases c <;> rfl
  | cons seg rest ih =>
    cases c with
    | leaf s => rfl
    | node es =>
      cases h : lookupEntries es seg with
      | some v => simp [eachSegment, lookupPath, h, ih]
      | none => simp [eachSegment, lookupPath, h]

theorem release_state (k : PianoKey) : (k.release).state = "off" := by
  simp only [PianoKey.release]

theorem release_noteNumber (k : PianoKey) : (k.release).noteNumber = k.noteNumber := by
  simp only [PianoKey.release, PianoKey.setColor, PianoKey.revertColor]
  split <;> simp

theorem runKey_state_trace (acts : List KeyAction) (k : PianoKey)
    (h : k.state = "on" ∨ k.state = "off") :
    ((runKey k acts).1.state = "on" ∨ (runKey k acts).1.state = "off") ∧
      altFrom k.state (((runKey k acts).2).map KeyEvent.state) = true := by
  induction acts generalizing k with
  | nil => exact ⟨h, rfl⟩
  | cons a rest ih =>
    cases a with
    | press =>
      rcases h with h | h
      · have hs : stepKey k KeyAction.press = (k, []) := by
          simp [stepKey, PianoKey.onPress, h]
        simp only [runKey, hs]
        exact ⟨(ih k (Or.inl h)).1, by
          simpa [h] using (ih k (Or.inl h)).2⟩
      · have hs : stepKey k KeyAction.press =
            (k.press, [⟨"on", k.noteNumber⟩]) := by
          simp [stepKey, PianoKey.onPress, h, PianoKey.press]
        have hstate : (k.press).state = "on" := rfl
        simp only [runKey, hs]
        refine ⟨(ih k.press (Or.inl hstate)).1, ?_⟩
        have htr := (ih k.press (Or.inl hstate)).2
        simp [altFrom, h, hstate] at htr ⊢
        exact htr
    | release =>
      rcases h with h | h
      · have hs : stepKey k KeyAction.release =
            (k.release, [⟨"off", k.noteNumber⟩]) := by
          simp [stepKey, PianoKey.onRelease, h, release_state, release_noteNumber]
        have hstate : (k.release).state = "off" := release_state k
        simp only [runKey, hs]
        refine ⟨(ih k.release (Or.inr hstate)).1, ?_⟩
        have htr := (ih k.release (Or.inr hstate)).2
        simp [altFrom, h, hstate] at htr ⊢
        exact htr
      · have hs : stepKey k KeyAction.release = (k, []) := by
          simp [stepKey, PianoKey.onRelease, h]
        simp only [runKey, hs]
        exact ⟨(ih k (Or.inr h)).1, by
          simpa [h] using (ih k (Or.inr h)).2⟩

/-! ## Claim theorems -/

/-- C1 (code bug in the source): getSortedNotes does not return the
active identifiers in numerically non-decreasing order. For the active
set 9, 60, 2 it returns [2, 60, 9] — the JS default sort compares the
keys as strings — instead of the numerically sorted [2, 9, 60]. -/
theorem c1_getSortedNotes_lexicographic_defect :
    (chordOf [9, 60, 2]).getSortedNotes = [2, 60, 9] ∧
      ¬ List.Pairwise (fun a b => a ≤ b) ((chordOf [9, 60, 2]).getSortedNotes) :=
  ⟨by decide, by decide⟩

/-- C2: after any noteOn/noteOff call sequence applied to the initially
empty chord, isNoteOn for an identifier equals the polarity of the last
call made for it (on after a trailing noteOn, off after a trailing
noteOff, off when the sequence never mentions it); a second consecutive
noteOn returns changed = false, and likewise a second consecutive
noteOff. -/
theorem c2_isNoteOn_follows_call_sequence (seq : List NoteCmd) (i : Nat) (c : Chord) :
    (runCmds emptyChord seq).isNoteOn i = (lastCmdFor i seq).getD false ∧
      (((c.noteOn i).1).noteOn i).2.1 = false ∧
      (((c.noteOff i).1).noteOff i).2.1 = false := by
  refine ⟨?_, ?_, ?_⟩
  · have h := runCmds_isNoteOn seq emptyChord i
    simpa [emptyChord, Chord.isNoteOn] using h
  · simp [Chord.noteOn, contains_iff_mem, mem_insertAsc]
  · have h := isNoteOn_noteOff_self c i
    simp only [Chord.isNoteOn] at h
    simp [Chord.noteOff, h]

/-- C2 witness: the contract evaluated on the sequence noteOn 60,
noteOn 60 for identifier 60 and a chord already holding note 5. -/
theorem c2_isNoteOn_follows_call_sequence_witness :
    (runCmds emptyChord [NoteCmd.on 60, NoteCmd.on 60]).isNoteOn 60 =
        (lastCmdFor 60 [NoteCmd.on 60, NoteCmd.on 60]).getD false ∧
      (((Chord.mk [5]).noteOn 60).1.noteOn 60).2.1 = false ∧
      (((Chord.mk [5]).noteOff 60).1.noteOff 60).2.1 = false :=
  c2_isNoteOn_follows_call_sequence [NoteCmd.on 60, NoteCmd.on 60] 60 ⟨[5]⟩

/-- C3: noteOn leaves the identifier present and returns true exactly
when it was absent, firing the change/on event exactly in that case;
noteOff leaves it absent and returns true exactly when it was present,
firing change/off exactly then; repeating the same command on the same
identifier fires no event. -/
theorem c3_noteOn_noteOff_change_contract (c : Chord) (i : Nat) :
    ((c.noteOn i).1.isNoteOn i = true) ∧
    ((c.noteOn i).2.1 = !(c.isNoteOn i)) ∧
    ((c.noteOn i).2.2 = if c.isNoteOn i then [] else [NoteEvent.on i]) ∧
    ((c.noteOff i).1.isNoteOn i = false) ∧
    ((c.noteOff i).2.1 = c.isNoteOn i) ∧
    ((c.noteOff i).2.2 = if c.isNoteOn i then [NoteEvent.off i] else []) ∧
    (((c.noteOn i).1.noteOn i).2.2 = []) ∧
    (((c.noteOff i).1.noteOff i).2.2 = []) := by
  have hOn := isNoteOn_noteOn_self c i
  have hOff := isNoteOn_noteOff_self c i
  refine ⟨hOn, rfl, ?_, hOff, rfl, ?_, ?_, ?_⟩
  · by_cases h : c.isNoteOn i <;>
      simp [Chord.noteOn, Chord.isNoteOn] at h ⊢
  · by_cases h : c.isNoteOn i <;>
      simp [Chord.noteOff, Chord.isNoteOn] at h ⊢
  · simp [Chord.noteOn, contains_iff_mem, mem_insertAsc]
  · simp only [Chord.isNoteOn] at hOff
    simp [Chord.noteOff, hOff]

/-- C3 witness: the change contract evaluated on a chord holding note 60
for identifier 60. -/
theorem c3_noteOn_noteOff_change_contract_witness :
    ((Chord.mk [60]).noteOn 60).1.isNoteOn 60 = true ∧
    (((Chord.mk [60]).noteOn 60).2.1 = !((Chord.mk [60]).isNoteOn 60)) ∧
    (((Chord.mk [60]).noteOn 60).2.2 =
      if (Chord.mk [60]).isNoteOn 60 then [] else [NoteEvent.on 60]) ∧
    (((Chord.mk [60]).noteOff 60).1.isNoteOn 60 = false) ∧
    (((Chord.mk [60]).noteOff 60).2.1 = (Chord.mk [60]).isNoteOn 60) ∧
    (((Chord.mk [60]).noteOff 60).2.2 =
      if (Chord.mk [60]).isNoteOn 60 then [NoteEvent.off 60] else []) ∧
    ((((Chord.mk [60]).noteOn 60).1.noteOn 60).2.2 = []) ∧
    ((((Chord.mk [60]).noteOff 60).1.noteOff 60).2.2 = []) :=
  c3_noteOn_noteOff_change_contract ⟨[60]⟩ 60

/-- C4: for every chord, the note numbers returned for clef bass and for
clef treble partition the active identifiers at the boundary 60 with no
overlap: bass keeps exactly the identifiers below 60 and treble exactly
those at or above 60. -/
theorem c4_clef_partition (c : Chord) (n : Nat) :
    c.getNoteNumbers (Option.some "bass") =
      Except.ok ((c.getSortedNotes).filter (fun m => decide (m < 60))) ∧
    c.getNoteNumbers (Option.some "treble") =
      Except.ok ((c.getSortedNotes).filter (fun m => decide (60 ≤ m))) ∧
    ((n ∈ (c.getSortedNotes).filter (fun m => decide (m < 60)) ∨
        n ∈ (c.getSortedNotes).filter (fun m => decide (60 ≤ m))) ↔ n ∈ c.notes) ∧
    ¬(n ∈ (c.getSortedNotes).filter (fun m => decide (m < 60)) ∧
        n ∈ (c.getSortedNotes).filter (fun m => decide (60 ≤ m))) := by
  have hbass := mapNotesAux_pred (fun noteNum => noteNum) "bass"
    (fun m => decide (m < 60)) rfl
    (fun m => by simp [noteNumBelongsToClef]) c.getSortedNotes
  have htreble := mapNotesAux_pred (fun noteNum => noteNum) "treble"
    (fun m => decide (60 ≤ m)) rfl
    (fun m => by simp [noteNumBelongsToClef]) c.getSortedNotes
  refine ⟨?_, ?_, ?_, ?_⟩
  · simpa [Chord.getNoteNumbers, Chord.mapNotes] using hbass
  · simpa [Chord.getNoteNumbers, Chord.mapNotes] using htreble
  · simp only [List.mem_filter, mem_getSortedNotes, decide_eq_true_eq]
    constructor
    · rintro (⟨h, _⟩ | ⟨h, _⟩) <;> exact h
    · intro h
      by_cases h60 : n < 60
      · exact Or.inl ⟨h, h60⟩
      · exact Or.inr ⟨h, by omega⟩
  · simp only [List.mem_filter, decide_eq_true_eq]
    rintro ⟨⟨_, hlt⟩, ⟨_, hge⟩⟩
    omega

/-- C4 witness: the partition evaluated on the chord holding 2, 59 and
60 at identifier 60. -/
theorem c4_clef_partition_witness :
    (Chord.mk [2, 59, 60]).getNoteNumbers (Option.some "bass") =
      Except.ok (((Chord.mk [2, 59, 60]).getSortedNotes).filter
        (fun m => decide (m < 60))) ∧
    (Chord.mk [2, 59, 60]).getNoteNumbers (Option.some "treble") =
      Except.ok (((Chord.mk [2, 59, 60]).getSortedNotes).filter
        (fun m => decide (60 ≤ m))) ∧
    ((60 ∈ ((Chord.mk [2, 59, 60]).getSortedNotes).filter (fun m => decide (m < 60)) ∨
        60 ∈ ((Chord.mk [2, 59, 60]).getSortedNotes).filter (fun m => decide (60 ≤ m))) ↔
      60 ∈ (Chord.mk [2, 59, 60]).notes) ∧
    ¬(60 ∈ ((Chord.mk [2, 59, 60]).getSortedNotes).filter (fun m => decide (m < 60)) ∧
        60 ∈ ((Chord.mk [2, 59, 60]).getSortedNotes).filter (fun m => decide (60 ≤ m))) :=
  c4_clef_partition ⟨[2, 59, 60]⟩ 60

/-- C5 counterexample: with no active notes, the clef-restricted
operations return a result for the unrecognized clef name alto instead
of failing: getNotes yields the empty list and hasNotes yields false. -/
theorem c5_counterexample_empty_set_invalid_clef :
    Chord.getNotes emptyChord (Option.some "alto") = Except.ok [] ∧
      Chord.hasNotes emptyChord (Option.some "alto") = Except.ok false :=
  ⟨rfl, rfl⟩

/-- C5 (amended): noteNumBelongsToClef and the StaveNotater factory fail
for every clef other than treble and bass; the clef-restricted getNotes
and hasNotes fail likewise provided at least one note is active and the
clef string is nonempty; an empty clef string is falsy and is treated as
no clef at all, and with no active notes the loops finish and return an
empty result before ever consulting the clef predicate. -/
theorem c5_invalid_clef_error_contract (s : String) (n : Nat) (c : Chord)
    (h1 : s ≠ "treble") (h2 : s ≠ "bass") :
    noteNumBelongsToClef n s = Except.error "invalid clef" ∧
    StaveNotater.create s = Except.error ("no such notater for clef: " ++ s) ∧
    (c.notes ≠ [] → s ≠ "" →
      c.getNotes (Option.some s) = Except.error "invalid clef" ∧
      c.hasNotes (Option.some s) = Except.error "invalid clef") ∧
    c.getNotes Option.none = Except.ok c.getSortedNotes ∧
    c.getNotes (Option.some "") = Except.ok c.getSortedNotes := by
  refine ⟨?_, ?_, ?_, ?_, ?_⟩
  · simp [noteNumBelongsToClef, h1, h2]
  · simp [StaveNotater.create, h1, h2]
  · intro hne h3
    constructor
    · cases hsort : c.getSortedNotes with
      | nil =>
        exfalso
        have hl := length_sortLe jsKeyLe c.notes
        rw [Chord.getSortedNotes] at hsort
        rw [hsort] at hl
        exact hne (List.eq_nil_of_length_eq_zero hl.symm)
      | cons x xs =>
        show mapNotesAux _ (Option.some s) c.getSortedNotes = _
        rw [hsort]
        exact mapNotesAux_invalid _ s h1 h2 h3 x xs
    · cases hnotes : c.notes with
      | nil => exact absurd hnotes hne
      | cons x xs =>
        show hasNotesAux (Option.some s) c.notes = _
        rw [hnotes]
        exact hasNotesAux_invalid s h1 h2 h3 x xs
  · simpa using mapNotesAux_falsy (fun noteNum => noteNum) Option.none rfl c.getSortedNotes
  · simpa using mapNotesAux_falsy (fun noteNum => noteNum) (Option.some "") rfl c.getSortedNotes

/-- C5 witness: the amended contract evaluated at clef alto with one
active note. -/
theorem c5_invalid_clef_error_contract_witness :
    noteNumBelongsToClef 0 "alto" = Except.error "invalid clef" ∧
      Chord.getNotes ⟨[60]⟩ (Option.some "alto") = Except.error "invalid clef" ∧
      Chord.hasNotes ⟨[60]⟩ (Option.some "alto") = Except.error "invalid clef" ∧
      StaveNotater.create "alto" = Except.error ("no such notater for clef: " ++ "alto") := by
  have h := c5_invalid_clef_error_contract "alto" 0 ⟨[60]⟩ (by decide) (by decide)
  have h3 := h.2.2.1 (by simp) (by decide)
  exact ⟨h.1, h3.1, h3.2, h.2.1⟩

/-- C6: every active identifier contributes to getNotePitches the record
with pitchClass = id mod 12 and octave = floor of id/12, minus 1, in
exact integer arithmetic. -/
theorem c6_getNotePitches_mod_floor (c : Chord) (i : Nat)
    (hmem : i ∈ c.notes) (h127 : i ≤ 127) :
    c.getNotePitches Option.none = Except.ok ((c.getSortedNotes).map pitchOfNote) ∧
      pitchOfNote i ∈ (c.getSortedNotes).map pitchOfNote ∧
      pitchOfNote i = ⟨i % 12, ((i / 12 : Nat) : Int) - 1⟩ := by
  refine ⟨?_, ?_, ?_⟩
  · exact mapNotesAux_falsy pitchOfNote Option.none rfl c.getSortedNotes
  · exact List.mem_map_of_mem pitchOfNote ((mem_getSortedNotes c i).mpr hmem)
  · simp [pitchOfNote, Int.natCast_div]

/-- C6 witness: the pitch conversion evaluated on the single active
identifier 61 (C sharp 4: pitch class 1, octave 4). -/
theorem c6_getNotePitches_mod_floor_witness :
    Chord.getNotePitches ⟨[61]⟩ Option.none =
        Except.ok (((Chord.mk [61]).getSortedNotes).map pitchOfNote) ∧
      pitchOfNote 61 ∈ ((Chord.mk [61]).getSortedNotes).map pitchOfNote ∧
      pitchOfNote 61 = ⟨61 % 12, ((61 / 12 : Nat) : Int) - 1⟩ :=
  c6_getNotePitches_mod_floor ⟨[61]⟩ 61 (by decide) (by decide)

/-- C7: the arity gates of the notaters: the treble notater draws its
single-note annotations (scale degree, solfège, note name, Helmholtz)
only when exactly one note is active, and the bass notater draws the
interval only for exactly two notes and the Roman numeral only for more
than two; for any other arity nothing is drawn. -/
theorem c7_notateChord_arity_gates (notes : List Nat) (mode : AnalyzeMode) :
    (notes.length ≠ 1 → trebleNotateChord notes mode = []) ∧
    (notes.length ≠ 2 → Mark.interval ∉ bassNotateChord notes mode) ∧
    (notes.length ≤ 2 → Mark.roman ∉ bassNotateChord notes mode) := by
  refine ⟨?_, ?_, ?_⟩
  · intro h
    simp [trebleNotateChord, h]
  · intro h
    simp only [bassNotateChord, h, if_false]
    by_cases h2 : notes.length > 2
    · simp [h2]
    · simp [h2]
  · intro h
    by_cases h2 : notes.length = 2
    · simp only [bassNotateChord, h2, if_true]
      split <;> simp
    · have h3 : ¬ notes.length > 2 := by omega
      simp [bassNotateChord, h2, h3]

/-- C7 witness: with every display option enabled, two active notes draw
nothing on the treble stave, one active note draws no interval and two
active notes draw no Roman numeral. -/
theorem c7_notateChord_arity_gates_witness :
    trebleNotateChord [60, 64] modeAllOn = [] ∧
      Mark.interval ∉ bassNotateChord [60] modeAllOn ∧
      Mark.roman ∉ bassNotateChord [60, 64] modeAllOn := by
  have h := c7_notateChord_arity_gates [60, 64] modeAllOn
  have h1 := c7_notateChord_arity_gates [60] modeAllOn
  exact ⟨h.1 (by decide), h1.2.1 (by decide), h.2.2 (by decide)⟩

/-- C8: Config.get throws for a non-string key; for a string key it
returns the stored value exactly when the dot-separated path exists in
the configuration tree and throws a Key-not-found error as the
synchronous result of the call otherwise. -/
theorem c8_configGet_fails_loudly (root : ConfigVal) (k : String) (v : ConfigVal) :
    (configGet root JsKey.nonString = Except.error "Config key must be a string") ∧
    (lookupPath root (splitSegs k) = Option.some v →
      configGet root (JsKey.str k) = Except.ok v) ∧
    (lookupPath root (splitSegs k) = Option.none →
      configGet root (JsKey.str k) = Except.error ("Key not found: " ++ k)) := by
  refine ⟨rfl, ?_, ?_⟩
  · intro h
    simp [configGet, eachSegment_lookupPath, h]
  · intro h
    simp [configGet, eachSegment_lookupPath, h]

/-- C8 witness: a two-level tree answers an existing dotted path with the
stored value and throws on a missing one. -/
theorem c8_configGet_fails_loudly_witness :
    configGet
        (ConfigVal.node [("analysis", ConfigVal.node [("enabled", ConfigVal.leaf "true")])])
        (JsKey.str "analysis.enabled") = Except.ok (ConfigVal.leaf "true") ∧
      configGet
        (ConfigVal.node [("analysis", ConfigVal.node [("enabled", ConfigVal.leaf "true")])])
        (JsKey.str "general.missing") =
          Except.error ("Key not found: " ++ "general.missing") := by
  have ha := c8_configGet_fails_loudly
    (ConfigVal.node [("analysis", ConfigVal.node [("enabled", ConfigVal.leaf "true")])])
    "analysis.enabled" (ConfigVal.leaf "true")
  have hb := c8_configGet_fails_loudly
    (ConfigVal.node [("analysis", ConfigVal.node [("enabled", ConfigVal.leaf "true")])])
    "general.missing" (ConfigVal.leaf "true")
  exact ⟨ha.2.1 rfl, hb.2.2 rfl⟩

/-- C9: the configuration is immutable through its public interface:
Config.set throws for every key and value, and no sequence of public
get/set calls changes the stored configuration tree. -/
theorem c9_config_immutable (key : JsKey) (v root : ConfigVal) (ops : List ConfigOp) :
    configSet key v = Except.error "config is read-only" ∧
      runConfigOps root ops = root := by
  refine ⟨rfl, ?_⟩
  induction ops with
  | nil => rfl
  | cons op rest ih =>
    cases op with
    | get k => exact ih
    | set k w => exact ih

/-- C9 witness: a set call on a one-entry tree throws and a get/set
sequence leaves the tree unchanged. -/
theorem c9_config_immutable_witness :
    configSet (JsKey.str "general") (ConfigVal.leaf "x") =
        Except.error "config is read-only" ∧
      runConfigOps (ConfigVal.node [("general", ConfigVal.leaf "g")])
        [ConfigOp.set (JsKey.str "general") (ConfigVal.leaf "x"),
          ConfigOp.get (JsKey.str "general")] =
        ConfigVal.node [("general", ConfigVal.leaf "g")] :=
  c9_config_immutable (JsKey.str "general") (ConfigVal.leaf "x")
    (ConfigVal.node [("general", ConfigVal.leaf "g")])
    [ConfigOp.set (JsKey.str "general") (ConfigVal.leaf "x"),
      ConfigOp.get (JsKey.str "general")]

/-- C10: a piano key fires the keyboard key event only on a real
transition: onPress fires only from the released state and moves the key
to pressed with the event carrying on; onRelease fires only from the
pressed state and moves it to released with the event carrying off; so
from its initial state the key is always on or off and consecutive
emitted events alternate between on and off. -/
theorem c10_piano_key_events_alternate (k : PianoKey) (n : Nat)
    (up dn : String) (acts : List KeyAction) :
    (k.onPress.2 = if k.state = "off" then [⟨"on", k.noteNumber⟩] else []) ∧
    ((k.onPress.1).state = if k.state = "off" then "on" else k.state) ∧
    (k.onRelease.2 = if k.state = "on" then [⟨"off", k.noteNumber⟩] else []) ∧
    ((k.onRelease.1).state = if k.state = "on" then "off" else k.state) ∧
    ((runKey (initPianoKey n up dn) acts).1.state = "on" ∨
      (runKey (initPianoKey n up dn) acts).1.state = "off") ∧
    altFrom "off" (((runKey (initPianoKey n up dn) acts).2).map KeyEvent.state) = true := by
  have htrace := runKey_state_trace acts (initPianoKey n up dn) (Or.inr rfl)
  refine ⟨?_, ?_, ?_, ?_, htrace.1, htrace.2⟩
  · by_cases h : k.state = "off" <;> simp [PianoKey.onPress, PianoKey.press, h]
  · by_cases h : k.state = "off" <;> simp [PianoKey.onPress, PianoKey.press, h]
  · by_cases h : k.state = "on" <;>
      simp [PianoKey.onRelease, release_state, release_noteNumber, h]
  · by_cases h : k.state = "on" <;>
      simp [PianoKey.onRelease, release_state, h]

/-- C10 witness: the event contract evaluated on a freshly initialized
key for note 60 under the interaction press, press, release. -/
theorem c10_piano_key_events_alternate_witness :
    ((initPianoKey 60 "u" "d").onPress.2 =
      if (initPianoKey 60 "u" "d").state = "off"
      then [⟨"on", (initPianoKey 60 "u" "d").noteNumber⟩] else []) ∧
    (((initPianoKey 60 "u" "d").onPress.1).state =
      if (initPianoKey 60 "u" "d").state = "off" then "on"
      else (initPianoKey 60 "u" "d").state) ∧
    ((initPianoKey 60 "u" "d").onRelease.2 =
      if (initPianoKey 60 "u" "d").state = "on"
      then [⟨"off", (initPianoKey 60 "u" "d").noteNumber⟩] else []) ∧
    (((initPianoKey 60 "u" "d").onRelease.1).state =
      if (initPianoKey 60 "u" "d").state = "on" then "off"
      else (initPianoKey 60 "u" "d").state) ∧
    ((runKey (initPianoKey 60 "u" "d")
        [KeyAction.press, KeyAction.press, KeyAction.release]).1.state = "on" ∨
      (runKey (initPianoKey 60 "u" "d")
        [KeyAction.press, KeyAction.press, KeyAction.release]).1.state = "off") ∧
    altFrom "off" (((runKey (initPianoKey 60 "u" "d")
        [KeyAction.press, KeyAction.press, KeyAction.release]).2).map
      KeyEvent.state) = true :=
  c10_piano_key_events_alternate (initPianoKey 60 "u" "d") 60 "u" "d"
    [KeyAction.press, KeyAction.press, KeyAction.release]

end HarmonyLab
